import Mathlib

/-
Verification of the task-manager Kanban board core
(src/components/KanbanBoard.tsx and src/unnamed/part_000).

The board state lives in plain JavaScript objects.  We embed them as
association lists `List (String × _)` whose order is JS object key
insertion order:
  * object read `o[k]`            -> jsGet    (first binding wins)
  * object spread `{...o, [k]:v}` -> jsSet    (replace in place, else append)
  * `delete o[k]`                 -> jsDelete (drop the binding)
Array mutations from the source are modelled byte-for-byte:
  * `a.splice(i, 1)`     -> jsRemoveAt (start clamped to length)
  * `a.splice(i, 0, x)`  -> jsInsertAt / jsInsertAtInt (negative start
                            counts from the end, as in JS)
  * `a.indexOf(x)`       -> jsIndexOf (-1 when absent)
  * `a.filter(y => y !== x)` -> List.filter with bne
String helpers from the source (`s.trim()`, `s.split("__")` followed by
`rest.join("__")`) are modelled over `String.data`: `jsTrim` drops
whitespace from both ends, and `decodeId` splits at the first occurrence
of the "__" separator, which is exactly what destructuring the JS split
into `[profile, ...rest]` and re-joining `rest` with "__" computes.
-/

namespace Kanban

/-! ## JS primitive models -/

def jsGet {α : Type} (l : List (String × α)) (k : String) : Option α :=
  match l with
  | [] => none
  | (k1, v) :: t => if k1 = k then some v else jsGet t k

def jsSet {α : Type} (l : List (String × α)) (k : String) (v : α) :
    List (String × α) :=
  match l with
  | [] => [(k, v)]
  | (k1, v1) :: t => if k1 = k then (k, v) :: t else (k1, v1) :: jsSet t k v

def jsDelete {α : Type} (l : List (String × α)) (k : String) :
    List (String × α) :=
  l.filter (fun p => p.1 != k)

/-- Model of `a.splice(i, 1)` for a nonnegative index: JS clamps the start
to the array length, removing nothing when `i` is out of range. -/
def jsRemoveAt {α : Type} (l : List α) (i : Nat) : List α :=
  l.take i ++ l.drop (i + 1)

/-- Model of `a.splice(i, 0, x)` for a nonnegative index: JS clamps the
start to the array length, appending when `i` is out of range. -/
def jsInsertAt {α : Type} (l : List α) (i : Nat) (x : α) : List α :=
  l.take i ++ x :: l.drop i

/-- Model of `a.splice(i, 0, x)` for an arbitrary integer index: a
negative start counts from the end of the array (clamped at 0). -/
def jsInsertAtInt {α : Type} (l : List α) (i : Int) (x : α) : List α :=
  if i < 0 then jsInsertAt l (l.length - (-i).toNat) x
  else jsInsertAt l i.toNat x

/-- Model of `a.indexOf(x)`: index of the first occurrence, -1 if absent. -/
def jsIndexOf (l : List String) (x : String) : Int :=
  match l with
  | [] => -1
  | a :: t =>
    if a = x then 0
    else
      let r := jsIndexOf t x
      if r = -1 then -1 else r + 1

/-- Model of `s.trim()`: drop whitespace characters from both ends. -/
def jsTrim (s : String) : String :=
  String.mk (((s.data.dropWhile Char.isWhitespace).reverse.dropWhile
    Char.isWhitespace).reverse)

/-- Split a character list at the first occurrence of the two-character
separator "__", returning the parts before and after it. -/
def splitFirstSep : List Char → Option (List Char × List Char)
  | '_' :: '_' :: t => some ([], t)
  | c :: rest => (splitFirstSep rest).map (fun p => (c :: p.1, p.2))
  | [] => none

/-- Model of the source's namespace decoding
`const [profile, ...rest] = id.split("__"); rest.join("__")`:
the profile is the part before the first "__" and the original task id is
everything after it (the empty string when no separator occurs). -/
def decodeId (s : String) : String × String :=
  match splitFirstSep s.data with
  | some (p, r) => (String.mk p, String.mk r)
  | none => (s, "")

/-- The merged-view task id rewriting from `getMergedData`. -/
def nsId (profile tid : String) : String :=
  profile ++ "__" ++ tid

/-! ## Data model (KanbanBoard.tsx lines 15-62) -/

structure Task where
  id : String
  content : String
deriving DecidableEq

structure Column where
  id : String
  title : String
  taskIds : List String
deriving DecidableEq

structure KanbanData where
  columns : List (String × Column)
  tasks : List (String × Task)
  columnOrder : List String
deriving DecidableEq

/-- The documented default board (`initialData` in the source). -/
def initialData : KanbanData :=
  { columns :=
      [("todo", { id := "todo", title := "To Do",
                  taskIds := ["task-1", "task-2"] }),
       ("inprogress", { id := "inprogress", title := "In Progress",
                        taskIds := ["task-3"] }),
       ("done", { id := "done", title := "Done", taskIds := [] })],
    tasks :=
      [("task-1", { id := "task-1", content := "Design UI" }),
       ("task-2", { id := "task-2", content := "Set up database" }),
       ("task-3", { id := "task-3", content := "Implement drag and drop" })],
    columnOrder := ["todo", "inprogress", "done"] }

/-! ## Board store operations

`moveRaw` is the splice logic of `onDragEnd` after the early no-op
return: the source checks `start === finish`, which for distinct keys of
the columns object is key equality.  The full lookups are guarded with
`Option`; the source would throw on a missing column, so the claims carry
lookup-success hypotheses. -/

def moveRaw (b : KanbanData) (draggableId srcCol : String) (srcIdx : Nat)
    (dstCol : String) (dstIdx : Nat) : KanbanData :=
  match jsGet b.columns srcCol, jsGet b.columns dstCol with
  | some start, some finish =>
    if srcCol = dstCol then
      let newTaskIds := jsInsertAt (jsRemoveAt start.taskIds srcIdx) dstIdx
        draggableId
      let newColumn : Column := { start with taskIds := newTaskIds }
      { b with columns := jsSet b.columns newColumn.id newColumn }
    else
      let newStart : Column :=
        { start with taskIds := jsRemoveAt start.taskIds srcIdx }
      let newFinish : Column :=
        { finish with taskIds := jsInsertAt finish.taskIds dstIdx draggableId }
      { b with columns :=
          jsSet (jsSet b.columns newStart.id newStart) newFinish.id newFinish }
  | _, _ => b

/-- `onDragEnd` on a single profile board: the early return when source
and destination coincide (drop on the original spot), then the splice
logic of `moveRaw`. -/
def moveTask (b : KanbanData) (draggableId srcCol : String) (srcIdx : Nat)
    (dstCol : String) (dstIdx : Nat) : KanbanData :=
  if srcCol = dstCol ∧ dstIdx = srcIdx then b
  else moveRaw b draggableId srcCol srcIdx dstCol dstIdx

/-- The board update of `handleAddTask` / `handleAddTaskFromCommandBar`
after the blank-content guard: register the task and prepend its id to
the `todo` column. -/
def addTaskBody (b : KanbanData) (content id : String) : KanbanData :=
  match jsGet b.columns "todo" with
  | none => b
  | some todo =>
    { b with
      tasks := jsSet b.tasks id { id := id, content := content },
      columns := jsSet b.columns "todo"
        { todo with taskIds := id :: todo.taskIds } }

/-- `handleAddTask` on one board: `if (!newTask.trim()) return;` then the
add.  The generated id (`task-` plus the clock) is a parameter here. -/
def addTask (b : KanbanData) (content id : String) : KanbanData :=
  if jsTrim content = "" then b else addTaskBody b content id

/-- `handleDeleteTask` on one board: unconditionally delete the id from
the tasks object and filter it out of the addressed column. -/
def deleteTask (b : KanbanData) (taskId columnId : String) : KanbanData :=
  match jsGet b.columns columnId with
  | none => b
  | some col =>
    let newTasks := jsDelete b.tasks taskId
    let newColumn : Column :=
      { col with taskIds := col.taskIds.filter (fun i => i != taskId) }
    { b with tasks := newTasks,
             columns := jsSet b.columns columnId newColumn }

/-- The undo record captured by `handleDeleteTask`
(`{ task, columnId, index }`; the index is `indexOf`, so -1 on a miss). -/
def deletedTaskInfo (b : KanbanData) (taskId columnId : String) :
    Option Task × Int :=
  (jsGet b.tasks taskId,
   match jsGet b.columns columnId with
   | none => -1
   | some col => jsIndexOf col.taskIds taskId)

/-- `handleUndoDelete` on one board: re-register the task and splice its
id back into the recorded column at the recorded index. -/
def restoreTask (b : KanbanData) (task : Task) (columnId : String)
    (index : Int) : KanbanData :=
  match jsGet b.columns columnId with
  | none => b
  | some col =>
    let newTasks := jsSet b.tasks task.id task
    let newTaskIds := jsInsertAtInt col.taskIds index task.id
    { b with tasks := newTasks,
             columns := jsSet b.columns columnId
               { col with taskIds := newTaskIds } }

example : moveTask initialData "task-3" "inprogress" 0 "done" 0 =
    { initialData with columns :=
      [("todo", { id := "todo", title := "To Do",
                  taskIds := ["task-1", "task-2"] }),
       ("inprogress", { id := "inprogress", title := "In Progress",
                        taskIds := [] }),
       ("done", { id := "done", title := "Done", taskIds := ["task-3"] })] } := by
  decide

example : decodeId "work__task-1" = ("work", "task-1") := by decide

example : decodeId "work__a__b" = ("work", "a__b") := by decide

example : jsTrim "   " = "" := by decide

/-! ## Profiles and the merged ("all") view (KanbanBoard.tsx lines 69-147) -/

/-- The two independent profile boards.  After the mount effect both keys
are always present in the `profiles` record, so a two-field structure is
the faithful state. -/
structure Profiles where
  work : KanbanData
  personal : KanbanData
deriving DecidableEq

/-- One merged column of `getMergedData`: the profile loop pushes work's
namespaced ids and then personal's into the fresh column.  `none` models
the exception a missing column key would raise in the source. -/
def mergedColumn (cid title : String) (w p : KanbanData) : Option Column :=
  match jsGet w.columns cid, jsGet p.columns cid with
  | some wc, some pc =>
    some { id := cid, title := title,
           taskIds := wc.taskIds.map (nsId "work") ++
             pc.taskIds.map (nsId "personal") }
  | _, _ => none

/-- `getMergedData`: fresh three-column board; per column the
concatenation work-then-personal of namespaced ids; tasks re-keyed and
re-idd to `profile__originalId`, work entries first. -/
def getMergedData (w p : KanbanData) : Option KanbanData :=
  match mergedColumn "todo" "To Do" w p,
      mergedColumn "inprogress" "In Progress" w p,
      mergedColumn "done" "Done" w p with
  | some ct, some ci, some cd =>
    some { columns := [("todo", ct), ("inprogress", ci), ("done", cd)],
           tasks :=
             w.tasks.map (fun q =>
               (nsId "work" q.1, { q.2 with id := nsId "work" q.1 })) ++
             p.tasks.map (fun q =>
               (nsId "personal" q.1, { q.2 with id := nsId "personal" q.1 })),
           columnOrder := ["todo", "inprogress", "done"] }
  | _, _, _ => none

/-- `onDragEnd` in the "all" view (KanbanBoard.tsx lines 218-275): the
early same-spot return, then the owner profile is decoded from the
dragged id, and the splice logic runs on that profile's own board with
the decoded original id but with the merged view's indices. -/
def mergedMove (ps : Profiles) (draggableId srcCol : String) (srcIdx : Nat)
    (dstCol : String) (dstIdx : Nat) : Profiles :=
  if srcCol = dstCol ∧ dstIdx = srcIdx then ps
  else
    let d := decodeId draggableId
    if d.1 = "work" then
      { ps with work := moveRaw ps.work d.2 srcCol srcIdx dstCol dstIdx }
    else if d.1 = "personal" then
      { ps with personal := moveRaw ps.personal d.2 srcCol srcIdx dstCol dstIdx }
    else ps

/-- `handleDeleteTask` in the "all" view (KanbanBoard.tsx lines 398-424):
decode the owner, delete the original id from that profile's board. -/
def mergedDelete (ps : Profiles) (taskId columnId : String) : Profiles :=
  let d := decodeId taskId
  if d.1 = "work" then
    { ps with work := deleteTask ps.work d.2 columnId }
  else if d.1 = "personal" then
    { ps with personal := deleteTask ps.personal d.2 columnId }
  else ps

/-- `handleAddTaskFromCommandBar` (KanbanBoard.tsx lines 363-384): blank
guard, then the destination profile is the quick-add selection in the
"all" view and the active profile otherwise; anything other than a known
profile name is rejected. -/
def handleAddTaskFromCommandBar (ps : Profiles) (activeProfile : String)
    (addTaskProfile : Option String) (content id : String) : Profiles :=
  if jsTrim content = "" then ps
  else
    let profile : Option String :=
      if activeProfile = "all" then addTaskProfile else some activeProfile
    if profile = some "work" then
      { ps with work := addTaskBody ps.work content id }
    else if profile = some "personal" then
      { ps with personal := addTaskBody ps.personal content id }
    else ps

/-! ## Single-board state machine for the reachability invariant

The four Board Store operations of the spec, with the preconditions their
callers establish in the source: a drag event reports the dragged id's
true position and an existing destination column; the generated id of an
add is unique in the session; a delete targets a task rendered inside the
addressed column; restore consumes the armed undo record. -/

structure UndoInfo where
  task : Task
  columnId : String
  index : Int
deriving DecidableEq

structure BoardState where
  board : KanbanData
  undo : Option UndoInfo
deriving DecidableEq

/-- All ids referenced by a columns record, in entry order. -/
def colJoin (cs : List (String × Column)) : List String :=
  (cs.map (fun q => q.2.taskIds)).flatten

/-- All ids referenced by the columns of a board, in column order. -/
def allColIds (b : KanbanData) : List String :=
  colJoin b.columns

/-- The keys of the tasks record. -/
def taskKeys (b : KanbanData) : List String :=
  b.tasks.map Prod.fst

inductive Step : BoardState → BoardState → Prop
  | move (s : BoardState) (draggableId srcCol dstCol : String)
      (srcIdx dstIdx : Nat) (col dcol : Column)
      (hsrc : jsGet s.board.columns srcCol = some col)
      (hat : col.taskIds[srcIdx]? = some draggableId)
      (hdst : jsGet s.board.columns dstCol = some dcol) :
      Step s { s with
        board := moveTask s.board draggableId srcCol srcIdx dstCol dstIdx }
  | add (s : BoardState) (content id : String)
      (hfreshTasks : id ∉ taskKeys s.board)
      (hfreshCols : id ∉ allColIds s.board)
      (hfreshUndo : ∀ r, s.undo = some r → id ≠ r.task.id) :
      Step s { s with board := addTask s.board content id }
  | delete (s : BoardState) (taskId columnId : String) (col : Column)
      (t : Task)
      (hcol : jsGet s.board.columns columnId = some col)
      (hmem : taskId ∈ col.taskIds)
      (ht : jsGet s.board.tasks taskId = some t) :
      Step s { board := deleteTask s.board taskId columnId,
               undo := some { task := t, columnId := columnId,
                              index := jsIndexOf col.taskIds taskId } }
  | restore (s : BoardState) (r : UndoInfo) (hr : s.undo = some r) :
      Step s { board := restoreTask s.board r.task r.columnId r.index,
               undo := none }
  | dismiss (s : BoardState) :
      Step s { s with undo := none }

def initialState : BoardState :=
  { board := initialData, undo := none }

/-- Boards reachable from the documented default board by sequences of
the four operations. -/
inductive Reachable : BoardState → Prop
  | init : Reachable initialState
  | step {s t : BoardState} : Reachable s → Step s t → Reachable t

/-- The membership invariant of the claim: no duplicate id within or
across columns, every referenced id is a task, every task id is
referenced. -/
def boardInv (b : KanbanData) : Prop :=
  (allColIds b).Nodup ∧
  (∀ id ∈ allColIds b, id ∈ taskKeys b) ∧
  (∀ id ∈ taskKeys b, id ∈ allColIds b)

instance (b : KanbanData) : Decidable (boardInv b) := by
  unfold boardInv
  infer_instance

/-- Record well-formedness: keys are unique and every stored column and
task carries its own key as its `id` field. -/
def wfBoard (b : KanbanData) : Prop :=
  (b.columns.map Prod.fst).Nodup ∧
  (∀ q ∈ b.columns, (q.2 : Column).id = q.1) ∧
  (b.tasks.map Prod.fst).Nodup ∧
  (∀ q ∈ b.tasks, (q.2 : Task).id = q.1)

instance (b : KanbanData) : Decidable (wfBoard b) := by
  unfold wfBoard
  infer_instance

/-- An armed undo record refers to a task that is gone from the board,
at a nonnegative prior index, in a column that still exists. -/
def undoRecOk (b : KanbanData) : Option UndoInfo → Prop
  | none => True
  | some r =>
    r.task.id ∉ taskKeys b ∧
    r.task.id ∉ allColIds b ∧
    (jsGet b.columns r.columnId).isSome = true ∧
    0 ≤ r.index

instance (b : KanbanData) : (o : Option UndoInfo) → Decidable (undoRecOk b o)
  | none => isTrue trivial
  | some r => by unfold undoRecOk; infer_instance

def undoInv (s : BoardState) : Prop :=
  undoRecOk s.board s.undo

instance (s : BoardState) : Decidable (undoInv s) := by
  unfold undoInv
  infer_instance

def stateInv (s : BoardState) : Prop :=
  wfBoard s.board ∧ boardInv s.board ∧ undoInv s

instance (s : BoardState) : Decidable (stateInv s) := by
  unfold stateInv
  infer_instance

example : stateInv initialState := by decide

/-! ## Association list lemmas -/

theorem jsGet_jsSet {α : Type} (l : List (String × α)) (k k1 : String)
    (v : α) :
    jsGet (jsSet l k v) k1 = if k = k1 then some v else jsGet l k1 := by
  induction l with
  | nil =>
    by_cases h : k = k1 <;> simp [jsGet, jsSet, h]
  | cons q t ih =>
    obtain ⟨k2, v2⟩ := q
    by_cases h2 : k2 = k
    · subst h2
      by_cases h : k2 = k1 <;> simp [jsGet, jsSet, h]
    · by_cases h : k2 = k1
      · subst h
        have hkk : ¬ k = k2 := fun hh => h2 hh.symm
        simp [jsGet, jsSet, h2, hkk]
      · simp [jsGet, jsSet, h2, h, ih]

theorem jsGet_none_iff {α : Type} (l : List (String × α)) (k : String) :
    jsGet l k = none ↔ k ∉ l.map Prod.fst := by
  induction l with
  | nil => simp [jsGet]
  | cons q t ih =>
    obtain ⟨k1, v1⟩ := q
    by_cases h : k1 = k
    · subst h
      simp [jsGet]
    · have h2 : ¬ k = k1 := fun hh => h hh.symm
      simp [jsGet, h, h2, ih]

theorem jsGet_mem {α : Type} {l : List (String × α)} {k : String} {v : α}
    (h : jsGet l k = some v) : (k, v) ∈ l := by
  induction l with
  | nil => simp [jsGet] at h
  | cons q t ih =>
    obtain ⟨k1, v1⟩ := q
    by_cases h1 : k1 = k
    · subst h1
      simp [jsGet] at h
      simp [h]
    · simp [jsGet, h1] at h
      exact List.mem_cons_of_mem _ (ih h)

theorem jsGet_split {α : Type} {l : List (String × α)} {k : String} {v : α}
    (h : jsGet l k = some v) :
    ∃ l1 l2, l = l1 ++ (k, v) :: l2 ∧ k ∉ l1.map Prod.fst ∧
      ∀ w, jsSet l k w = l1 ++ (k, w) :: l2 := by
  induction l with
  | nil => simp [jsGet] at h
  | cons q t ih =>
    obtain ⟨k1, v1⟩ := q
    by_cases h1 : k1 = k
    · subst h1
      simp [jsGet] at h
      subst h
      exact ⟨[], t, by simp [jsSet]⟩
    · simp [jsGet, h1] at h
      obtain ⟨l1, l2, he, hk, hs⟩ := ih h
      refine ⟨(k1, v1) :: l1, l2, by simp [he], ?_, fun w => ?_⟩
      · simp [hk]
        exact fun hh => h1 hh.symm
      · simp [jsSet, h1, hs w]

theorem jsSet_self {α : Type} {l : List (String × α)} {k : String} {v : α}
    (h : jsGet l k = some v) : jsSet l k v = l := by
  obtain ⟨l1, l2, he, _, hs⟩ := jsGet_split h
  rw [hs v, he]

theorem jsSet_jsSet {α : Type} (l : List (String × α)) (k : String)
    (v w : α) : jsSet (jsSet l k v) k w = jsSet l k w := by
  induction l with
  | nil => simp [jsSet]
  | cons q t ih =>
    obtain ⟨k1, v1⟩ := q
    by_cases h1 : k1 = k <;> simp [jsSet, h1, ih]

theorem jsDelete_cons {α : Type} (k1 : String) (v1 : α)
    (t : List (String × α)) (k : String) :
    jsDelete ((k1, v1) :: t) k =
      if k1 = k then jsDelete t k else (k1, v1) :: jsDelete t k := by
  by_cases h : k1 = k <;> simp [jsDelete, List.filter_cons, h]

theorem jsGet_jsDelete {α : Type} (l : List (String × α)) (k k1 : String) :
    jsGet (jsDelete l k) k1 = if k1 = k then none else jsGet l k1 := by
  induction l with
  | nil => by_cases h : k1 = k <;> simp [jsGet, jsDelete, h]
  | cons q t ih =>
    obtain ⟨k2, v2⟩ := q
    rw [jsDelete_cons]
    by_cases h2 : k2 = k
    · subst h2
      by_cases h : k1 = k2
      · subst h
        simp [ih]
      · have hne : ¬ k2 = k1 := fun hh => h hh.symm
        simp [jsGet, hne, ih, h]
    · by_cases h3 : k2 = k1
      · subst h3
        simp [jsGet, h2]
      · simp [jsGet, h2, h3, ih]

theorem jsSet_of_none {α : Type} {l : List (String × α)} {k : String}
    (h : jsGet l k = none) (v : α) : jsSet l k v = l ++ [(k, v)] := by
  induction l with
  | nil => simp [jsSet]
  | cons q t ih =>
    obtain ⟨k1, v1⟩ := q
    by_cases h1 : k1 = k
    · subst h1
      simp [jsGet] at h
    · simp [jsGet, h1] at h
      simp [jsSet, h1, ih h]

theorem map_fst_jsSet_of_some {α : Type} {l : List (String × α)}
    {k : String} {v : α} (h : jsGet l k = some v) (w : α) :
    (jsSet l k w).map Prod.fst = l.map Prod.fst := by
  obtain ⟨l1, l2, he, _, hs⟩ := jsGet_split h
  rw [hs w, he]
  simp

theorem mem_jsSet {α : Type} {l : List (String × α)} {k : String} {v : α}
    {q : String × α} (h : q ∈ jsSet l k v) : q ∈ l ∨ q = (k, v) := by
  induction l with
  | nil => simp [jsSet] at h; simp [h]
  | cons p t ih =>
    obtain ⟨k1, v1⟩ := p
    by_cases h1 : k1 = k
    · subst h1
      simp [jsSet] at h
      rcases h with h | h
      · right; simp [h]
      · left; simp [h]
    · simp [jsSet, h1] at h
      rcases h with h | h
      · left; simp [h]
      · rcases ih h with h2 | h2
        · left; exact List.mem_cons_of_mem _ h2
        · right; exact h2

theorem mem_jsDelete {α : Type} {l : List (String × α)} {k : String}
    {q : String × α} (h : q ∈ jsDelete l k) : q ∈ l :=
  List.mem_of_mem_filter h

theorem map_fst_jsDelete {α : Type} (l : List (String × α)) (k : String) :
    (jsDelete l k).map Prod.fst = (l.map Prod.fst).filter (fun s => s != k) := by
  induction l with
  | nil => simp [jsDelete]
  | cons q t ih =>
    obtain ⟨k1, v1⟩ := q
    rw [jsDelete_cons]
    by_cases h1 : k1 = k <;> simp [List.filter_cons, h1, ih]

theorem isSome_jsGet_jsSet {α : Type} {l : List (String × α)} {k1 : String}
    (k : String) (v : α) (h : (jsGet l k1).isSome = true) :
    (jsGet (jsSet l k v) k1).isSome = true := by
  rw [jsGet_jsSet]
  split <;> simp [h]

/-! ## Splice and count lemmas -/

theorem count_jsInsertAt (l : List String) (i : Nat) (x a : String) :
    (jsInsertAt l i x).count a = l.count a + if x = a then 1 else 0 := by
  have hsplit : (l.take i).count a + (l.drop i).count a = l.count a := by
    rw [← List.count_append, List.take_append_drop]
  unfold jsInsertAt
  by_cases h : x = a <;>
    simp [List.count_append, List.count_cons, h] <;> omega

theorem getElem?_split {l : List String} {i : Nat} {x : String}
    (h : l[i]? = some x) : l = l.take i ++ x :: l.drop (i + 1) := by
  induction l generalizing i with
  | nil => simp at h
  | cons b t ih =>
    cases i with
    | zero =>
      simp at h
      subst h
      simp
    | succ n =>
      simp at h
      simpa using ih h

theorem count_jsRemoveAt {l : List String} {i : Nat} {x : String}
    (h : l[i]? = some x) (a : String) :
    (jsRemoveAt l i).count a + (if x = a then 1 else 0) = l.count a := by
  conv_rhs => rw [getElem?_split h]
  unfold jsRemoveAt
  by_cases hx : x = a <;>
    simp [List.count_append, List.count_cons, hx] <;> omega

theorem count_filter_ne_self (l : List String) (x : String) :
    (l.filter (fun y => y != x)).count x = 0 := by
  induction l with
  | nil => simp
  | cons b t ih =>
    by_cases hb : b = x <;>
      simp [List.filter_cons, hb, List.count_cons, ih, bne_iff_ne]

theorem count_filter_ne_other {x a : String} (h : ¬ x = a)
    (l : List String) :
    (l.filter (fun y => y != x)).count a = l.count a := by
  induction l with
  | nil => simp
  | cons b t ih =>
    by_cases hb : b = x
    · subst hb
      simp [List.filter_cons, List.count_cons, ih, h]
    · simp [List.filter_cons, List.count_cons, ih, hb, bne_iff_ne]

theorem count_filter_ne (l : List String) (x a : String) :
    (l.filter (fun y => y != x)).count a = if x = a then 0 else l.count a := by
  by_cases h : x = a
  · subst h
    simp [count_filter_ne_self]
  · simp [h, count_filter_ne_other h l]

theorem jsIndexOf_nonneg {l : List String} {x : String} (h : x ∈ l) :
    0 ≤ jsIndexOf l x := by
  induction l with
  | nil => simp at h
  | cons b t ih =>
    by_cases hb : b = x
    · simp [jsIndexOf, hb]
    · have hm : x ∈ t := by
        rcases List.mem_cons.mp h with h1 | h1
        · exact absurd h1.symm hb
        · exact h1
      have h2 := ih hm
      have h3 : ¬ jsIndexOf t x = -1 := by omega
      simp [jsIndexOf, hb, h3]
      omega

theorem jsInsertAtInt_of_nonneg (l : List String) {i : Int} (h : 0 ≤ i)
    (x : String) : jsInsertAtInt l i x = jsInsertAt l i.toNat x := by
  unfold jsInsertAtInt
  rw [if_neg (by omega)]

theorem colJoin_append (c1 c2 : List (String × Column)) :
    colJoin (c1 ++ c2) = colJoin c1 ++ colJoin c2 := by
  simp [colJoin]

theorem colJoin_cons (q : String × Column) (cs : List (String × Column)) :
    colJoin (q :: cs) = q.2.taskIds ++ colJoin cs := by
  simp [colJoin]

theorem count_colJoin_jsSet {cs : List (String × Column)} {k : String}
    {c : Column} (h : jsGet cs k = some c) (c1 : Column) (a : String) :
    (colJoin (jsSet cs k c1)).count a + c.taskIds.count a =
      (colJoin cs).count a + c1.taskIds.count a := by
  obtain ⟨l1, l2, he, _, hs⟩ := jsGet_split h
  rw [hs c1, he, colJoin_append, colJoin_cons, colJoin_append, colJoin_cons]
  simp [List.count_append]
  omega

theorem count_le_colJoin {cs : List (String × Column)} {k : String}
    {c : Column} (h : jsGet cs k = some c) (a : String) :
    c.taskIds.count a ≤ (colJoin cs).count a := by
  obtain ⟨l1, l2, he, _, _⟩ := jsGet_split h
  rw [he, colJoin_append, colJoin_cons]
  simp [List.count_append]
  omega

/-- Count characterization of the membership invariant together with
uniqueness of task keys. -/
theorem boardInv_count_char (b : KanbanData) :
    ((taskKeys b).Nodup ∧ boardInv b) ↔
      ∀ a, (allColIds b).count a ≤ 1 ∧ (taskKeys b).count a ≤ 1 ∧
        (allColIds b).count a = (taskKeys b).count a := by
  constructor
  · rintro ⟨hk, hj, h1, h2⟩ a
    have hja := List.nodup_iff_count_le_one.mp hj a
    have hka := List.nodup_iff_count_le_one.mp hk a
    refine ⟨hja, hka, ?_⟩
    by_cases hmem : a ∈ allColIds b
    · have hmk := h1 a hmem
      have hc1 : 0 < (allColIds b).count a := List.count_pos_iff.mpr hmem
      have hc2 : 0 < (taskKeys b).count a := List.count_pos_iff.mpr hmk
      omega
    · have hnk : a ∉ taskKeys b := fun hh => hmem (h2 a hh)
      have hz1 := List.count_eq_zero.mpr hmem
      have hz2 := List.count_eq_zero.mpr hnk
      omega
  · intro h
    refine ⟨List.nodup_iff_count_le_one.mpr (fun a => (h a).2.1),
      List.nodup_iff_count_le_one.mpr (fun a => (h a).1), ?_, ?_⟩
    · intro a hmem
      have h3 := (h a).2.2
      have h4 : 0 < (allColIds b).count a := List.count_pos_iff.mpr hmem
      exact List.count_pos_iff.mp (by omega)
    · intro a hmem
      have h3 := (h a).2.2
      have h4 : 0 < (taskKeys b).count a := List.count_pos_iff.mpr hmem
      exact List.count_pos_iff.mp (by omega)

theorem jsGet_isSome_iff {α : Type} (l : List (String × α)) (k : String) :
    (jsGet l k).isSome = true ↔ k ∈ l.map Prod.fst := by
  constructor
  · intro hs
    rcases h : jsGet l k with _ | v
    · rw [h] at hs
      simp at hs
    · exact List.mem_map.mpr ⟨(k, v), jsGet_mem h, rfl⟩
  · intro hm
    rcases h : jsGet l k with _ | v
    · exact absurd hm ((jsGet_none_iff l k).mp h)
    · rfl

/-! ## Preservation: move -/

theorem tasks_moveRaw (b : KanbanData) (d sc : String) (si : Nat)
    (tc : String) (ti : Nat) : (moveRaw b d sc si tc ti).tasks = b.tasks := by
  unfold moveRaw
  cases jsGet b.columns sc with
  | none => rfl
  | some start =>
    cases jsGet b.columns tc with
    | none => rfl
    | some fin => by_cases h : sc = tc <;> simp [h]

theorem tasks_moveTask (b : KanbanData) (d sc : String) (si : Nat)
    (tc : String) (ti : Nat) :
    (moveTask b d sc si tc ti).tasks = b.tasks := by
  unfold moveTask
  split
  · rfl
  · exact tasks_moveRaw b d sc si tc ti

theorem columns_moveRaw {b : KanbanData} {sc tc : String} {col dcol : Column}
    (d : String) (si ti : Nat)
    (hsrc : jsGet b.columns sc = some col)
    (hdst : jsGet b.columns tc = some dcol) :
    (moveRaw b d sc si tc ti).columns =
      if sc = tc then
        jsSet b.columns col.id
          { col with taskIds := jsInsertAt (jsRemoveAt col.taskIds si) ti d }
      else
        jsSet (jsSet b.columns col.id { col with taskIds := jsRemoveAt col.taskIds si })
          dcol.id { dcol with taskIds := jsInsertAt dcol.taskIds ti d } := by
  unfold moveRaw
  rw [hsrc, hdst]
  by_cases hcc : sc = tc <;> simp [hcc]

theorem map_fst_columns_moveRaw {b : KanbanData} {sc tc : String}
    {col dcol : Column} (d : String) (si ti : Nat)
    (hwfc : ∀ q ∈ b.columns, (q.2 : Column).id = q.1)
    (hsrc : jsGet b.columns sc = some col)
    (hdst : jsGet b.columns tc = some dcol) :
    (moveRaw b d sc si tc ti).columns.map Prod.fst =
      b.columns.map Prod.fst := by
  have hid1 : col.id = sc := hwfc (sc, col) (jsGet_mem hsrc)
  have hid2 : dcol.id = tc := hwfc (tc, dcol) (jsGet_mem hdst)
  rw [columns_moveRaw d si ti hsrc hdst]
  split
  · rw [map_fst_jsSet_of_some (hid1 ▸ hsrc)]
  · next hcc =>
    have hget2 : jsGet (jsSet b.columns col.id
        { col with taskIds := jsRemoveAt col.taskIds si }) dcol.id =
        some dcol := by
      rw [jsGet_jsSet, if_neg (by rw [hid1, hid2]; exact hcc)]
      exact hid2 ▸ hdst
    rw [map_fst_jsSet_of_some hget2, map_fst_jsSet_of_some (hid1 ▸ hsrc)]

theorem wfcols_moveRaw {b : KanbanData} {sc tc : String}
    {col dcol : Column} (d : String) (si ti : Nat)
    (hwfc : ∀ q ∈ b.columns, (q.2 : Column).id = q.1)
    (hsrc : jsGet b.columns sc = some col)
    (hdst : jsGet b.columns tc = some dcol) :
    ∀ q ∈ (moveRaw b d sc si tc ti).columns, (q.2 : Column).id = q.1 := by
  rw [columns_moveRaw d si ti hsrc hdst]
  split
  · intro q hq
    rcases mem_jsSet hq with h | h
    · exact hwfc q h
    · rw [h]
  · intro q hq
    rcases mem_jsSet hq with h | h
    · rcases mem_jsSet h with h2 | h2
      · exact hwfc q h2
      · rw [h2]
    · rw [h]

theorem counts_moveRaw {b : KanbanData} {d sc tc : String} {si ti : Nat}
    {col dcol : Column}
    (hwfc : ∀ q ∈ b.columns, (q.2 : Column).id = q.1)
    (hsrc : jsGet b.columns sc = some col)
    (hat : col.taskIds[si]? = some d)
    (hdst : jsGet b.columns tc = some dcol) (a : String) :
    (allColIds (moveRaw b d sc si tc ti)).count a = (allColIds b).count a := by
  have hid1 : col.id = sc := hwfc (sc, col) (jsGet_mem hsrc)
  have hid2 : dcol.id = tc := hwfc (tc, dcol) (jsGet_mem hdst)
  have hrem := count_jsRemoveAt hat a
  unfold allColIds
  show (colJoin (moveRaw b d sc si tc ti).columns).count a =
    (colJoin b.columns).count a
  rw [columns_moveRaw d si ti hsrc hdst]
  split
  · have hins := count_jsInsertAt (jsRemoveAt col.taskIds si) ti d a
    have hkey := count_colJoin_jsSet (hid1 ▸ hsrc)
      { col with taskIds := jsInsertAt (jsRemoveAt col.taskIds si) ti d } a
    dsimp only at hkey
    omega
  · next hcc =>
    have hget2 : jsGet (jsSet b.columns col.id
        { col with taskIds := jsRemoveAt col.taskIds si }) dcol.id =
        some dcol := by
      rw [jsGet_jsSet, if_neg (by rw [hid1, hid2]; exact hcc)]
      exact hid2 ▸ hdst
    have hkey1 := count_colJoin_jsSet (hid1 ▸ hsrc)
      { col with taskIds := jsRemoveAt col.taskIds si } a
    have hkey2 := count_colJoin_jsSet hget2
      { dcol with taskIds := jsInsertAt dcol.taskIds ti d } a
    have hins := count_jsInsertAt dcol.taskIds ti d a
    dsimp only at hkey1 hkey2
    omega

theorem counts_moveTask {b : KanbanData} {d sc tc : String} {si ti : Nat}
    {col dcol : Column}
    (hwfc : ∀ q ∈ b.columns, (q.2 : Column).id = q.1)
    (hsrc : jsGet b.columns sc = some col)
    (hat : col.taskIds[si]? = some d)
    (hdst : jsGet b.columns tc = some dcol) (a : String) :
    (allColIds (moveTask b d sc si tc ti)).count a =
      (allColIds b).count a := by
  unfold moveTask
  split
  · rfl
  · exact counts_moveRaw hwfc hsrc hat hdst a

theorem map_fst_columns_moveTask {b : KanbanData} {sc tc : String}
    {col dcol : Column} (d : String) (si ti : Nat)
    (hwfc : ∀ q ∈ b.columns, (q.2 : Column).id = q.1)
    (hsrc : jsGet b.columns sc = some col)
    (hdst : jsGet b.columns tc = some dcol) :
    (moveTask b d sc si tc ti).columns.map Prod.fst =
      b.columns.map Prod.fst := by
  unfold moveTask
  split
  · rfl
  · exact map_fst_columns_moveRaw d si ti hwfc hsrc hdst

theorem wfcols_moveTask {b : KanbanData} {sc tc : String}
    {col dcol : Column} (d : String) (si ti : Nat)
    (hwfc : ∀ q ∈ b.columns, (q.2 : Column).id = q.1)
    (hsrc : jsGet b.columns sc = some col)
    (hdst : jsGet b.columns tc = some dcol) :
    ∀ q ∈ (moveTask b d sc si tc ti).columns, (q.2 : Column).id = q.1 := by
  unfold moveTask
  split
  · exact hwfc
  · exact wfcols_moveRaw d si ti hwfc hsrc hdst

/-! ## Preservation: delete, restore, add -/

theorem deleteTask_eq {b : KanbanData} {columnId : String} {col : Column}
    (hcol : jsGet b.columns columnId = some col) (taskId : String) :
    deleteTask b taskId columnId =
      { b with tasks := jsDelete b.tasks taskId,
               columns := jsSet b.columns columnId
                 { col with taskIds :=
                     col.taskIds.filter (fun i => i != taskId) } } := by
  unfold deleteTask
  rw [hcol]

theorem restoreTask_eq {b : KanbanData} {columnId : String} {col : Column}
    (hcol : jsGet b.columns columnId = some col) (task : Task)
    (index : Int) :
    restoreTask b task columnId index =
      { b with tasks := jsSet b.tasks task.id task,
               columns := jsSet b.columns columnId
                 { col with taskIds :=
                     jsInsertAtInt col.taskIds index task.id } } := by
  unfold restoreTask
  rw [hcol]

theorem addTaskBody_eq {b : KanbanData} {todo : Column}
    (htodo : jsGet b.columns "todo" = some todo) (content id : String) :
    addTaskBody b content id =
      { b with tasks := jsSet b.tasks id { id := id, content := content },
               columns := jsSet b.columns "todo"
                 { todo with taskIds := id :: todo.taskIds } } := by
  unfold addTaskBody
  rw [htodo]

/-! ## Preservation of the full invariant by every step -/

theorem step_stateInv {s t : BoardState} (h : stateInv s) (hs : Step s t) :
    stateInv t := by
  obtain ⟨⟨hcnd, hcid, htnd, htid⟩, hbi, hui⟩ := h
  unfold undoInv at hui
  have hchar := (boardInv_count_char s.board).mp ⟨htnd, hbi⟩
  cases hs with
  | move d sc tc si ti col dcol hsrc hat hdst =>
    have hmf := map_fst_columns_moveTask d si ti hcid hsrc hdst
    have htk := tasks_moveTask s.board d sc si tc ti
    have hcounts : ∀ a,
        (allColIds (moveTask s.board d sc si tc ti)).count a =
          (allColIds s.board).count a :=
      fun a => counts_moveTask hcid hsrc hat hdst a
    have htkeys : taskKeys (moveTask s.board d sc si tc ti) =
        taskKeys s.board := by
      unfold taskKeys
      rw [htk]
    refine ⟨⟨?_, ?_, ?_, ?_⟩, ?_, ?_⟩
    · show ((moveTask s.board d sc si tc ti).columns.map Prod.fst).Nodup
      rw [hmf]
      exact hcnd
    · exact wfcols_moveTask d si ti hcid hsrc hdst
    · show ((moveTask s.board d sc si tc ti).tasks.map Prod.fst).Nodup
      rw [htk]
      exact htnd
    · show ∀ q ∈ (moveTask s.board d sc si tc ti).tasks, (q.2 : Task).id = q.1
      rw [htk]
      exact htid
    · exact ((boardInv_count_char _).mpr (fun a => by
        rw [hcounts a, htkeys]
        exact hchar a)).2
    · show undoRecOk (moveTask s.board d sc si tc ti) s.undo
      cases hu : s.undo with
      | none => trivial
      | some r =>
        rw [hu] at hui
        obtain ⟨h1, h2, h3, h4⟩ := hui
        refine ⟨?_, ?_, ?_, h4⟩
        · rw [htkeys]
          exact h1
        · exact List.count_eq_zero.mp (by
            rw [hcounts]
            exact List.count_eq_zero.mpr h2)
        · rw [jsGet_isSome_iff] at h3 ⊢
          rw [hmf]
          exact h3
  | add content id hfT hfC hfU =>
    by_cases hblank : jsTrim content = ""
    · have hB : addTask s.board content id = s.board := by
        unfold addTask
        rw [if_pos hblank]
      rw [show ({ s with board := addTask s.board content id } : BoardState)
        = s by rw [hB]]
      exact ⟨⟨hcnd, hcid, htnd, htid⟩, hbi, hui⟩
    · cases htodo : jsGet s.board.columns "todo" with
      | none =>
        have hB : addTask s.board content id = s.board := by
          unfold addTask addTaskBody
          rw [if_neg hblank, htodo]
        rw [show ({ s with board := addTask s.board content id } : BoardState)
          = s by rw [hB]]
        exact ⟨⟨hcnd, hcid, htnd, htid⟩, hbi, hui⟩
      | some todo =>
        have hB : addTask s.board content id =
            { s.board with
              tasks := s.board.tasks ++ [(id, { id := id, content := content })],
              columns := jsSet s.board.columns "todo"
                { todo with taskIds := id :: todo.taskIds } } := by
          unfold addTask
          rw [if_neg hblank, addTaskBody_eq htodo content id,
            jsSet_of_none ((jsGet_none_iff _ _).mpr hfT) _]
        have htodoid : todo.id = "todo" := hcid _ (jsGet_mem htodo)
        rw [hB]
        have hkc : ∀ a,
            (taskKeys { s.board with
              tasks := s.board.tasks ++ [(id, { id := id, content := content })],
              columns := jsSet s.board.columns "todo"
                { todo with taskIds := id :: todo.taskIds } }).count a =
            (taskKeys s.board).count a + (if id = a then 1 else 0) := by
          intro a
          unfold taskKeys
          dsimp only
          by_cases hia : id = a <;>
            simp [List.count_append, List.count_cons, hia]
        have hcc : ∀ a,
            (allColIds { s.board with
              tasks := s.board.tasks ++ [(id, { id := id, content := content })],
              columns := jsSet s.board.columns "todo"
                { todo with taskIds := id :: todo.taskIds } }).count a =
            (allColIds s.board).count a + (if id = a then 1 else 0) := by
          intro a
          have h5 := count_colJoin_jsSet htodo
            { todo with taskIds := id :: todo.taskIds } a
          dsimp only at h5
          rw [List.count_cons] at h5
          unfold allColIds
          dsimp only
          by_cases hia : id = a <;> simp [hia] at h5 ⊢ <;> omega
        have hres := (boardInv_count_char _).mpr (fun a => by
          rw [hkc a, hcc a]
          have h6 := hchar a
          by_cases hia : id = a
          · subst hia
            have hz1 : (allColIds s.board).count id = 0 :=
              List.count_eq_zero.mpr hfC
            have hz2 : (taskKeys s.board).count id = 0 :=
              List.count_eq_zero.mpr hfT
            simp [hz1, hz2]
          · simp [hia]
            omega)
        refine ⟨⟨?_, ?_, hres.1, ?_⟩, hres.2, ?_⟩
        · show ((jsSet s.board.columns "todo"
            { todo with taskIds := id :: todo.taskIds }).map Prod.fst).Nodup
          rw [map_fst_jsSet_of_some htodo]
          exact hcnd
        · intro q hq
          rcases mem_jsSet hq with h5 | h5
          · exact hcid q h5
          · rw [h5]
            exact htodoid
        · intro q hq
          dsimp only at hq
          rcases List.mem_append.mp hq with h5 | h5
          · exact htid q h5
          · rw [List.mem_singleton.mp h5]
        · show undoRecOk _ s.undo
          cases hu : s.undo with
          | none => trivial
          | some r =>
            rw [hu] at hui
            obtain ⟨h1, h2, h3, h4⟩ := hui
            have hne : id ≠ r.task.id := hfU r hu
            refine ⟨?_, ?_, ?_, h4⟩
            · exact List.count_eq_zero.mp (by
                rw [hkc r.task.id]
                rw [List.count_eq_zero.mpr h1, if_neg hne])
            · exact List.count_eq_zero.mp (by
                rw [hcc r.task.id]
                rw [List.count_eq_zero.mpr h2, if_neg hne])
            · rw [jsGet_isSome_iff] at h3 ⊢
              dsimp only
              rw [map_fst_jsSet_of_some htodo]
              exact h3
  | delete taskId columnId col t1 hcol hmem ht =>
    rw [deleteTask_eq hcol taskId]
    have htid1 : t1.id = taskId := htid _ (jsGet_mem ht)
    have hcolid : col.id = columnId := hcid _ (jsGet_mem hcol)
    have hkc : ∀ a,
        (taskKeys { s.board with
          tasks := jsDelete s.board.tasks taskId,
          columns := jsSet s.board.columns columnId
            { col with taskIds :=
                col.taskIds.filter (fun i => i != taskId) } }).count a =
        if taskId = a then 0 else (taskKeys s.board).count a := by
      intro a
      unfold taskKeys
      dsimp only
      rw [map_fst_jsDelete]
      exact count_filter_ne _ _ a
    have hcc : ∀ a,
        (allColIds { s.board with
          tasks := jsDelete s.board.tasks taskId,
          columns := jsSet s.board.columns columnId
            { col with taskIds :=
                col.taskIds.filter (fun i => i != taskId) } }).count a =
        if taskId = a then 0 else (allColIds s.board).count a := by
      intro a
      have h5 := count_colJoin_jsSet hcol
        { col with taskIds := col.taskIds.filter (fun i => i != taskId) } a
      dsimp only at h5
      rw [count_filter_ne] at h5
      unfold allColIds
      dsimp only
      by_cases hia : taskId = a
      · subst hia
        have h6 : 0 < col.taskIds.count taskId := List.count_pos_iff.mpr hmem
        have h7 := count_le_colJoin hcol taskId
        have h8 : List.count taskId (colJoin s.board.columns) ≤ 1 :=
          (hchar taskId).1
        rw [if_pos rfl] at h5
        rw [if_pos rfl]
        omega
      · rw [if_neg hia] at h5
        rw [if_neg hia]
        omega
    have hres := (boardInv_count_char _).mpr (fun a => by
      rw [hkc a, hcc a]
      have h6 := hchar a
      by_cases hia : taskId = a <;> simp [hia] <;> omega)
    refine ⟨⟨?_, ?_, ?_, ?_⟩, hres.2, ?_⟩
    · show ((jsSet s.board.columns columnId
        { col with taskIds :=
            col.taskIds.filter (fun i => i != taskId) }).map Prod.fst).Nodup
      rw [map_fst_jsSet_of_some hcol]
      exact hcnd
    · intro q hq
      rcases mem_jsSet hq with h5 | h5
      · exact hcid q h5
      · rw [h5]
        exact hcolid
    · show ((jsDelete s.board.tasks taskId).map Prod.fst).Nodup
      rw [map_fst_jsDelete]
      exact htnd.filter _
    · intro q hq
      exact htid q (mem_jsDelete hq)
    · show undoRecOk _ (some _)
      refine ⟨?_, ?_, ?_, ?_⟩
      · show t1.id ∉ taskKeys _
        rw [htid1]
        exact List.count_eq_zero.mp (by rw [hkc taskId, if_pos rfl])
      · show t1.id ∉ allColIds _
        rw [htid1]
        exact List.count_eq_zero.mp (by rw [hcc taskId, if_pos rfl])
      · show (jsGet (jsSet s.board.columns columnId _) columnId).isSome = true
        rw [jsGet_jsSet, if_pos rfl]
        rfl
      · exact jsIndexOf_nonneg hmem
  | restore r hr =>
    rw [hr] at hui
    obtain ⟨h1, h2, h3, h4⟩ := hui
    obtain ⟨col, hcol⟩ := Option.isSome_iff_exists.mp h3
    rw [restoreTask_eq hcol r.task r.index]
    have hcolid : col.id = r.columnId := hcid _ (jsGet_mem hcol)
    have htasks : jsSet s.board.tasks r.task.id r.task =
        s.board.tasks ++ [(r.task.id, r.task)] :=
      jsSet_of_none ((jsGet_none_iff _ _).mpr h1) _
    have hinids : jsInsertAtInt col.taskIds r.index r.task.id =
        jsInsertAt col.taskIds r.index.toNat r.task.id :=
      jsInsertAtInt_of_nonneg _ h4 _
    have hkc : ∀ a,
        (taskKeys { s.board with
          tasks := jsSet s.board.tasks r.task.id r.task,
          columns := jsSet s.board.columns r.columnId
            { col with taskIds :=
                jsInsertAtInt col.taskIds r.index r.task.id } }).count a =
        (taskKeys s.board).count a + (if r.task.id = a then 1 else 0) := by
      intro a
      unfold taskKeys
      dsimp only
      rw [htasks]
      by_cases hia : r.task.id = a <;>
        simp [List.count_append, List.count_cons, hia]
    have hcc : ∀ a,
        (allColIds { s.board with
          tasks := jsSet s.board.tasks r.task.id r.task,
          columns := jsSet s.board.columns r.columnId
            { col with taskIds :=
                jsInsertAtInt col.taskIds r.index r.task.id } }).count a =
        (allColIds s.board).count a + (if r.task.id = a then 1 else 0) := by
      intro a
      have h5 := count_colJoin_jsSet hcol
        { col with taskIds := jsInsertAtInt col.taskIds r.index r.task.id } a
      dsimp only at h5
      rw [hinids, count_jsInsertAt] at h5
      unfold allColIds
      dsimp only
      rw [hinids]
      omega
    have hres := (boardInv_count_char _).mpr (fun a => by
      rw [hkc a, hcc a]
      have h6 := hchar a
      by_cases hia : r.task.id = a
      · subst hia
        have hz1 : (allColIds s.board).count r.task.id = 0 :=
          List.count_eq_zero.mpr h2
        have hz2 : (taskKeys s.board).count r.task.id = 0 :=
          List.count_eq_zero.mpr h1
        simp [hz1, hz2]
      · simp [hia]
        omega)
    refine ⟨⟨?_, ?_, hres.1, ?_⟩, hres.2, ?_⟩
    · show ((jsSet s.board.columns r.columnId
        { col with taskIds :=
            jsInsertAtInt col.taskIds r.index r.task.id }).map Prod.fst).Nodup
      rw [map_fst_jsSet_of_some hcol]
      exact hcnd
    · intro q hq
      rcases mem_jsSet hq with h5 | h5
      · exact hcid q h5
      · rw [h5]
        exact hcolid
    · intro q hq
      dsimp only at hq
      rw [htasks] at hq
      rcases List.mem_append.mp hq with h5 | h5
      · exact htid q h5
      · rw [List.mem_singleton.mp h5]
    · trivial
  | dismiss =>
    exact ⟨⟨hcnd, hcid, htnd, htid⟩, hbi, trivial⟩

/-- Every reachable state satisfies the full invariant. -/
theorem reachable_stateInv {s : BoardState} (h : Reachable s) : stateInv s := by
  induction h with
  | init => decide
  | step _ hstep ih => exact step_stateInv ih hstep

/-! ## String and splice bridging lemmas -/

theorem string_ext {s t : String} (h : s.data = t.data) : s = t := by
  cases s
  cases t
  exact congrArg String.mk h

theorem nsId_inj {pfx a b : String} (h : nsId pfx a = nsId pfx b) : a = b := by
  have hd := congrArg String.data h
  unfold nsId at hd
  rw [String.data_append, String.data_append, String.data_append,
    String.data_append] at hd
  exact string_ext (List.append_cancel_left hd)

theorem nsId_work_ne_personal (a b : String) :
    nsId "work" a ≠ nsId "personal" b := by
  intro h
  have hd := congrArg String.data h
  unfold nsId at hd
  rw [String.data_append, String.data_append, String.data_append,
    String.data_append] at hd
  have hw : "work".data = ['w', 'o', 'r', 'k'] := rfl
  have hp : "personal".data = ['p', 'e', 'r', 's', 'o', 'n', 'a', 'l'] := rfl
  rw [hw, hp] at hd
  simp at hd

theorem jsRemoveAt_eq_eraseIdx (l : List String) (i : Nat) :
    jsRemoveAt l i = l.eraseIdx i := by
  unfold jsRemoveAt
  rw [List.eraseIdx_eq_take_drop_succ]

theorem jsInsertAt_eq_insertIdx {l : List String} {i : Nat}
    (h : i ≤ l.length) (x : String) : jsInsertAt l i x = l.insertIdx i x := by
  induction l generalizing i with
  | nil =>
    have hi : i = 0 := by simpa using h
    subst hi
    simp [jsInsertAt]
  | cons b t ih =>
    cases i with
    | zero => simp [jsInsertAt]
    | succ n =>
      simp at h
      unfold jsInsertAt
      rw [List.insertIdx_succ_cons]
      simp only [List.take_succ_cons, List.drop_succ_cons, List.cons_append]
      rw [← ih h]
      rfl

theorem length_jsRemoveAt {l : List String} {i : Nat} (h : i < l.length) :
    (jsRemoveAt l i).length = l.length - 1 := by
  rw [jsRemoveAt_eq_eraseIdx]
  simp [List.length_eraseIdx, h]

/-! ## Claims -/

/-- C7: a move whose source column equals its destination column and whose
source index equals its destination index returns the input board itself
(the early return in `onDragEnd`). -/
theorem c7_moveTask_same_spot_noop (b : KanbanData)
    (draggableId c : String) (i : Nat) :
    moveTask b draggableId c i c i = b := by
  unfold moveTask
  rw [if_pos ⟨rfl, rfl⟩]

/-- C8: adding a task whose content is empty or consists only of
whitespace characters is a no-op: the board (tasks and all columns) is
returned unchanged. -/
theorem c8_addTask_blank_noop (b : KanbanData) (content id : String)
    (h : ∀ c ∈ content.data, c.isWhitespace) : addTask b content id = b := by
  have hdrop : content.data.dropWhile Char.isWhitespace = [] :=
    List.dropWhile_eq_nil_iff.mpr h
  have htrim : jsTrim content = "" := by
    unfold jsTrim
    rw [hdrop]
    rfl
  unfold addTask
  rw [if_pos htrim]

theorem c8_witness : addTask initialData "   " "task-9" = initialData :=
  c8_addTask_blank_noop initialData "   " "task-9" (by decide)

/-- C3 counterexample: in the default board, "task-3" is not in the
"todo" column, yet deleting it from "todo" changes the board — the id is
removed from the tasks record even though no column sequence changes. -/
theorem c3_counterexample :
    jsGet initialData.columns "todo" =
      some { id := "todo", title := "To Do",
             taskIds := ["task-1", "task-2"] } ∧
    "task-3" ∉ ["task-1", "task-2"] ∧
    deleteTask initialData "task-3" "todo" ≠ initialData := by
  decide

/-- C3 amended: deleting a task id that is not present in the addressed
column leaves every column sequence unchanged and removes just that key
from the tasks record; the board is returned fully unchanged exactly when
the id is also absent from the tasks record.  No not-found signal is
produced. -/
theorem c3_amended_delete_not_in_column (b : KanbanData)
    (taskId columnId : String) (col : Column)
    (hcol : jsGet b.columns columnId = some col)
    (hmem : taskId ∉ col.taskIds) :
    (deleteTask b taskId columnId).columns = b.columns ∧
    (deleteTask b taskId columnId).tasks = jsDelete b.tasks taskId ∧
    (deleteTask b taskId columnId).columnOrder = b.columnOrder ∧
    (taskId ∉ b.tasks.map Prod.fst → deleteTask b taskId columnId = b) := by
  have hfilter : col.taskIds.filter (fun i => i != taskId) = col.taskIds :=
    List.filter_eq_self.mpr (fun x hx =>
      bne_iff_ne.mpr (fun hh => hmem (hh ▸ hx)))
  have hcols : jsSet b.columns columnId
      { col with taskIds := col.taskIds.filter (fun i => i != taskId) } =
      b.columns := by
    rw [hfilter]
    exact jsSet_self hcol
  refine ⟨?_, ?_, ?_, ?_⟩
  · rw [deleteTask_eq hcol]
    exact hcols
  · rw [deleteTask_eq hcol]
  · rw [deleteTask_eq hcol]
  · intro hnk
    have hdel : jsDelete b.tasks taskId = b.tasks :=
      List.filter_eq_self.mpr (fun q hq =>
        bne_iff_ne.mpr (fun hh => hnk (List.mem_map.mpr ⟨q, hq, hh⟩)))
    rw [deleteTask_eq hcol, hcols, hdel]

theorem c3_amended_witness :
    deleteTask initialData "task-9" "todo" = initialData :=
  (c3_amended_delete_not_in_column initialData "task-9" "todo"
    { id := "todo", title := "To Do", taskIds := ["task-1", "task-2"] }
    rfl (by decide)).2.2.2 (by decide)

/-- C6: a move removes the dragged id at the source index and inserts it
at the destination index; for a same-column reorder the insertion index
addresses the already-shortened sequence (standard list reindexing,
`eraseIdx` then `insertIdx`), and for distinct columns the id is erased
from the source sequence and inserted into the destination sequence. -/
theorem c6_move_semantics (b : KanbanData) (tid srcCol dstCol : String)
    (i j : Nat) :
    (∀ col, jsGet b.columns srcCol = some col → col.id = srcCol →
      srcCol = dstCol → ¬ j = i → col.taskIds[i]? = some tid →
      j < col.taskIds.length →
      jsGet (moveTask b tid srcCol i dstCol j).columns srcCol =
        some { col with
          taskIds := (col.taskIds.eraseIdx i).insertIdx j tid }) ∧
    (∀ start finish, jsGet b.columns srcCol = some start →
      jsGet b.columns dstCol = some finish → start.id = srcCol →
      finish.id = dstCol → srcCol ≠ dstCol →
      j ≤ finish.taskIds.length →
      jsGet (moveTask b tid srcCol i dstCol j).columns srcCol =
        some { start with taskIds := start.taskIds.eraseIdx i } ∧
      jsGet (moveTask b tid srcCol i dstCol j).columns dstCol =
        some { finish with taskIds := finish.taskIds.insertIdx j tid }) := by
  constructor
  · intro col hcol hid hcc hne hat hj
    have hilen : i < col.taskIds.length :=
      (List.getElem?_eq_some_iff.mp hat).1
    have hguard : ¬ (srcCol = dstCol ∧ j = i) := fun hh => hne hh.2
    unfold moveTask
    rw [if_neg hguard]
    unfold moveRaw
    subst hcc
    rw [hcol]
    dsimp only
    rw [if_pos rfl, hid, jsGet_jsSet, if_pos rfl]
    have hjlen : j ≤ (jsRemoveAt col.taskIds i).length := by
      rw [length_jsRemoveAt hilen]
      omega
    rw [jsInsertAt_eq_insertIdx hjlen, jsRemoveAt_eq_eraseIdx]
  · intro start finish hstart hfin hids hidf hcc hj
    have hguard : ¬ (srcCol = dstCol ∧ j = i) := fun hh => hcc hh.1
    unfold moveTask
    rw [if_neg hguard]
    unfold moveRaw
    rw [hstart, hfin]
    dsimp only
    rw [if_neg hcc, hids, hidf]
    constructor
    · rw [jsGet_jsSet, if_neg (fun hh => hcc hh.symm), jsGet_jsSet,
        if_pos rfl, jsRemoveAt_eq_eraseIdx]
    · rw [jsGet_jsSet, if_pos rfl, jsInsertAt_eq_insertIdx hj]

/-- C1: every board reachable from the documented default board by any
sequence of the four operations — drag-move, add task, delete task,
restore/undo, invoked with the preconditions their callers establish in
the source (the drag event reports the dragged id's true source position
and an existing destination column, generated add ids are unique in the
session, a delete targets a task rendered inside the addressed column,
restore consumes the armed undo record) — satisfies the membership
invariant: every id referenced by a column is a task key, every task key
appears in a column, and no id occurs twice within or across columns. -/
theorem c1_reachable_membership_invariant (s : BoardState)
    (h : Reachable s) : boardInv s.board :=
  (reachable_stateInv h).2.1

theorem c1_witness : boardInv (deleteTask initialData "task-1" "todo") :=
  c1_reachable_membership_invariant
    { board := deleteTask initialData "task-1" "todo",
      undo := some { task := { id := "task-1", content := "Design UI" },
                     columnId := "todo",
                     index := jsIndexOf ["task-1", "task-2"] "task-1" } }
    (Reachable.step Reachable.init
      (Step.delete initialState "task-1" "todo"
        { id := "todo", title := "To Do", taskIds := ["task-1", "task-2"] }
        { id := "task-1", content := "Design UI" } rfl (by decide) rfl))

theorem jsInsertAt_cons (b : String) (l : List String) (n : Nat)
    (x : String) : jsInsertAt (b :: l) (n + 1) x = b :: jsInsertAt l n x := by
  simp [jsInsertAt]

theorem jsInsertAtInt_cons {i : Int} (h : 0 ≤ i) (b : String)
    (l : List String) (x : String) :
    jsInsertAtInt (b :: l) (i + 1) x = b :: jsInsertAtInt l i x := by
  rw [jsInsertAtInt_of_nonneg _ (by omega), jsInsertAtInt_of_nonneg _ h]
  have h2 : (i + 1).toNat = i.toNat + 1 := by omega
  rw [h2, jsInsertAt_cons]

/-- Splicing a deleted id back at its recorded `indexOf` position inverts
the filter that removed it, provided the sequence had no duplicates. -/
theorem insert_indexOf_filter {l : List String} {x : String}
    (hnd : l.Nodup) (hmem : x ∈ l) :
    jsInsertAtInt (l.filter (fun y => y != x)) (jsIndexOf l x) x = l := by
  induction l with
  | nil => simp at hmem
  | cons b t ih =>
    by_cases hb : b = x
    · subst hb
      have hbt : b ∉ t := (List.nodup_cons.mp hnd).1
      have hft : t.filter (fun y => y != b) = t :=
        List.filter_eq_self.mpr (fun a ha =>
          bne_iff_ne.mpr (fun hh => hbt (hh ▸ ha)))
      simp [List.filter_cons, hft, jsIndexOf, jsInsertAtInt, jsInsertAt]
    · have hm : x ∈ t := by
        rcases List.mem_cons.mp hmem with h1 | h1
        · exact absurd h1.symm hb
        · exact h1
      have hnn := jsIndexOf_nonneg hm
      have hr3 : ¬ jsIndexOf t x = -1 := by omega
      have hidx : jsIndexOf (b :: t) x = jsIndexOf t x + 1 := by
        simp [jsIndexOf, hb, hr3]
      have hbne : (b != x) = true := bne_iff_ne.mpr hb
      have hfc : (b :: t).filter (fun y => y != x) =
          b :: t.filter (fun y => y != x) := by
        simp [List.filter_cons, hbne]
      rw [hfc, hidx, jsInsertAtInt_cons hnn, ih (List.nodup_cons.mp hnd).2 hm]

theorem jsGet_jsSet_jsDelete {α : Type} {l : List (String × α)} {k : String}
    {v : α} (h : jsGet l k = some v) (k1 : String) :
    jsGet (jsSet (jsDelete l k) k v) k1 = jsGet l k1 := by
  rw [jsGet_jsSet]
  by_cases hk : k = k1
  · subst hk
    rw [if_pos rfl, h]
  · rw [if_neg hk, jsGet_jsDelete, if_neg (fun hh => hk hh.symm)]

/-- C4: deleting a task present in a column and immediately restoring the
returned task at the returned column and index reproduces the original
board exactly: the columns record, the column order and the tasks mapping
(read through any key) all coincide with the pre-delete board. -/
theorem c4_delete_restore_round_trip (b : KanbanData)
    (taskId columnId : String) (col : Column) (t : Task)
    (hcol : jsGet b.columns columnId = some col)
    (hmem : taskId ∈ col.taskIds)
    (hnd : col.taskIds.Nodup)
    (ht : jsGet b.tasks taskId = some t)
    (htid : t.id = taskId) :
    (restoreTask (deleteTask b taskId columnId) t columnId
        (jsIndexOf col.taskIds taskId)).columns = b.columns ∧
    (restoreTask (deleteTask b taskId columnId) t columnId
        (jsIndexOf col.taskIds taskId)).columnOrder = b.columnOrder ∧
    ∀ k, jsGet (restoreTask (deleteTask b taskId columnId) t columnId
        (jsIndexOf col.taskIds taskId)).tasks k = jsGet b.tasks k := by
  have hcol2 : jsGet (deleteTask b taskId columnId).columns columnId =
      some { col with
        taskIds := col.taskIds.filter (fun i => i != taskId) } := by
    rw [deleteTask_eq hcol]
    dsimp only
    rw [jsGet_jsSet, if_pos rfl]
  have hins : jsInsertAtInt (col.taskIds.filter (fun i => i != taskId))
      (jsIndexOf col.taskIds taskId) t.id = col.taskIds := by
    rw [htid]
    exact insert_indexOf_filter hnd hmem
  have hrest := restoreTask_eq hcol2 t (jsIndexOf col.taskIds taskId)
  refine ⟨?_, ?_, ?_⟩
  · rw [hrest]
    dsimp only
    rw [hins, deleteTask_eq hcol]
    dsimp only
    rw [jsSet_jsSet]
    exact jsSet_self hcol
  · rw [hrest, deleteTask_eq hcol]
  · intro k
    rw [hrest]
    dsimp only
    rw [deleteTask_eq hcol]
    dsimp only
    rw [htid]
    exact jsGet_jsSet_jsDelete ht k

theorem c4_witness :
    (restoreTask (deleteTask initialData "task-1" "todo")
        { id := "task-1", content := "Design UI" } "todo"
        (jsIndexOf ["task-1", "task-2"] "task-1")).columns =
      initialData.columns ∧
    jsGet (restoreTask (deleteTask initialData "task-1" "todo")
        { id := "task-1", content := "Design UI" } "todo"
        (jsIndexOf ["task-1", "task-2"] "task-1")).tasks "task-1" =
      jsGet initialData.tasks "task-1" :=
  ⟨(c4_delete_restore_round_trip initialData "task-1" "todo"
      { id := "todo", title := "To Do", taskIds := ["task-1", "task-2"] }
      { id := "task-1", content := "Design UI" } rfl (by decide) (by decide)
      rfl rfl).1,
   (c4_delete_restore_round_trip initialData "task-1" "todo"
      { id := "todo", title := "To Do", taskIds := ["task-1", "task-2"] }
      { id := "task-1", content := "Design UI" } rfl (by decide) (by decide)
      rfl rfl).2.2 "task-1"⟩

theorem c6_witness :
    jsGet (moveTask initialData "task-1" "todo" 0 "todo" 1).columns
        "todo" =
      some { id := "todo", title := "To Do",
             taskIds := ((["task-1", "task-2"].eraseIdx 0).insertIdx 1
               "task-1") } ∧
    (jsGet (moveTask initialData "task-3" "inprogress" 0 "done" 0).columns
        "inprogress" =
      some { id := "inprogress", title := "In Progress",
             taskIds := (["task-3"].eraseIdx 0 : List String) } ∧
     jsGet (moveTask initialData "task-3" "inprogress" 0 "done" 0).columns
        "done" =
      some { id := "done", title := "Done",
             taskIds := (([] : List String).insertIdx 0 "task-3") }) :=
  ⟨(c6_move_semantics initialData "task-1" "todo" "todo" 0 1).1
      { id := "todo", title := "To Do", taskIds := ["task-1", "task-2"] }
      rfl rfl rfl (by decide) rfl (by decide),
   (c6_move_semantics initialData "task-3" "inprogress" "done" 0 0).2
      { id := "inprogress", title := "In Progress", taskIds := ["task-3"] }
      { id := "done", title := "Done", taskIds := [] }
      rfl rfl rfl rfl (by decide) (by decide)⟩

/-- A work profile with a single task "w1" in the todo column. -/
def workEx : KanbanData :=
  { columns :=
      [("todo", { id := "todo", title := "To Do", taskIds := ["w1"] }),
       ("inprogress", { id := "inprogress", title := "In Progress",
                        taskIds := [] }),
       ("done", { id := "done", title := "Done", taskIds := [] })],
    tasks := [("w1", { id := "w1", content := "Work item" })],
    columnOrder := ["todo", "inprogress", "done"] }

/-- A personal profile with a single task "p1" in the todo column. -/
def personalEx : KanbanData :=
  { columns :=
      [("todo", { id := "todo", title := "To Do", taskIds := ["p1"] }),
       ("inprogress", { id := "inprogress", title := "In Progress",
                        taskIds := [] }),
       ("done", { id := "done", title := "Done", taskIds := [] })],
    tasks := [("p1", { id := "p1", content := "Personal item" })],
    columnOrder := ["todo", "inprogress", "done"] }

def psEx : Profiles := { work := workEx, personal := personalEx }

/-- C2: the merged-view drag handler passes the merged visual index
directly into the owning profile's splice.  In the merged board the todo
column is ["work__w1", "personal__p1"], so "personal__p1" sits at merged
index 1; dragging it to merged index 0 of the same column should be an
in-profile no-op (zero personal entries precede the drop point), but the
code splices personal's one-element column at indices 1 and 0, leaving
the id duplicated and the membership invariant broken. -/
theorem c2_merged_move_index_bug :
    boardInv personalEx ∧
    (getMergedData workEx personalEx).map
        (fun m => (jsGet m.columns "todo").map Column.taskIds) =
      some (some ["work__w1", "personal__p1"]) ∧
    jsGet (mergedMove psEx "personal__p1" "todo" 1 "todo" 0).personal.columns
        "todo" =
      some { id := "todo", title := "To Do", taskIds := ["p1", "p1"] } ∧
    ¬ boardInv (mergedMove psEx "personal__p1" "todo" 1 "todo" 0).personal := by
  decide

/-- C9: every merged-view mutation — move or delete, whichever profile
the decoded owner is — is routed to that single profile's board, is
invoked with the decoded original (un-namespaced) id, and leaves the
other profile's board value completely unchanged. -/
theorem c9_merged_dispatch_frame (ps : Profiles) (draggableId srcCol : String)
    (srcIdx : Nat) (dstCol : String) (dstIdx : Nat)
    (taskId columnId : String) :
    ((decodeId draggableId).1 = "work" →
      (mergedMove ps draggableId srcCol srcIdx dstCol dstIdx).personal =
        ps.personal ∧
      (¬ (srcCol = dstCol ∧ dstIdx = srcIdx) →
        (mergedMove ps draggableId srcCol srcIdx dstCol dstIdx).work =
          moveRaw ps.work (decodeId draggableId).2 srcCol srcIdx dstCol
            dstIdx)) ∧
    ((decodeId draggableId).1 = "personal" →
      (mergedMove ps draggableId srcCol srcIdx dstCol dstIdx).work =
        ps.work ∧
      (¬ (srcCol = dstCol ∧ dstIdx = srcIdx) →
        (mergedMove ps draggableId srcCol srcIdx dstCol dstIdx).personal =
          moveRaw ps.personal (decodeId draggableId).2 srcCol srcIdx dstCol
            dstIdx)) ∧
    ((decodeId taskId).1 = "work" →
      (mergedDelete ps taskId columnId).personal = ps.personal ∧
      (mergedDelete ps taskId columnId).work =
        deleteTask ps.work (decodeId taskId).2 columnId) ∧
    ((decodeId taskId).1 = "personal" →
      (mergedDelete ps taskId columnId).work = ps.work ∧
      (mergedDelete ps taskId columnId).personal =
        deleteTask ps.personal (decodeId taskId).2 columnId) := by
  refine ⟨fun hmv => ⟨?_, fun hng => ?_⟩, fun hmv => ⟨?_, fun hng => ?_⟩,
    fun hdel => ?_, fun hdel => ?_⟩
  · unfold mergedMove
    split
    · rfl
    · dsimp only
      rw [hmv, if_pos rfl]
  · unfold mergedMove
    rw [if_neg hng]
    dsimp only
    rw [hmv, if_pos rfl]
  · unfold mergedMove
    split
    · rfl
    · dsimp only
      rw [hmv, if_neg (by decide), if_pos rfl]
  · unfold mergedMove
    rw [if_neg hng]
    dsimp only
    rw [hmv, if_neg (by decide), if_pos rfl]
  · unfold mergedDelete
    dsimp only
    rw [hdel, if_pos rfl]
    exact ⟨rfl, rfl⟩
  · unfold mergedDelete
    dsimp only
    rw [hdel, if_neg (by decide), if_pos rfl]
    exact ⟨rfl, rfl⟩

theorem c9_witness :
    (mergedMove psEx "work__w1" "todo" 0 "done" 0).personal =
      psEx.personal ∧
    (mergedMove psEx "personal__p1" "todo" 0 "done" 0).work = psEx.work ∧
    (mergedDelete psEx "work__w1" "todo").personal = psEx.personal ∧
    (mergedDelete psEx "personal__p1" "todo").work = psEx.work :=
  ⟨((c9_merged_dispatch_frame psEx "work__w1" "todo" 0 "done" 0
      "work__w1" "todo").1 (by decide)).1,
   ((c9_merged_dispatch_frame psEx "personal__p1" "todo" 0 "done" 0
      "personal__p1" "todo").2.1 (by decide)).1,
   ((c9_merged_dispatch_frame psEx "work__w1" "todo" 0 "done" 0
      "work__w1" "todo").2.2.1 (by decide)).1,
   ((c9_merged_dispatch_frame psEx "personal__p1" "todo" 0 "done" 0
      "personal__p1" "todo").2.2.2 (by decide)).1⟩

/-- C10: submitting the merged-view quick-add with no destination profile
selected is a no-op on both profiles; once a destination profile is
chosen and the content is non-blank, the task is added to exactly that
profile's board and the other profile is unchanged. -/
theorem c10_merged_add_requires_profile (ps : Profiles)
    (content id : String) :
    handleAddTaskFromCommandBar ps "all" none content id = ps ∧
    (¬ jsTrim content = "" →
      (handleAddTaskFromCommandBar ps "all" (some "work") content id).personal =
        ps.personal ∧
      (handleAddTaskFromCommandBar ps "all" (some "work") content id).work =
        addTaskBody ps.work content id ∧
      (handleAddTaskFromCommandBar ps "all" (some "personal") content id).work =
        ps.work ∧
      (handleAddTaskFromCommandBar ps "all" (some "personal") content id).personal =
        addTaskBody ps.personal content id) := by
  constructor
  · unfold handleAddTaskFromCommandBar
    split
    · rfl
    · simp
  · intro h
    unfold handleAddTaskFromCommandBar
    refine ⟨?_, ?_, ?_, ?_⟩ <;> simp [h]

theorem mergedColumn_spec {w p : KanbanData} {cid title : String}
    {c wc pc : Column}
    (he : mergedColumn cid title w p = some c)
    (hwc : jsGet w.columns cid = some wc)
    (hpc : jsGet p.columns cid = some pc) :
    c.taskIds = wc.taskIds.map (nsId "work") ++
      pc.taskIds.map (nsId "personal") := by
  unfold mergedColumn at he
  rw [hwc, hpc] at he
  exact congrArg Column.taskIds (Option.some.inj he).symm

/-- C5: the merged board of two profile boards has exactly the sum of the
two task counts (its task keys are pairwise distinct), every merged task
id is the owning profile name, "__", then the original id, and every
merged column's sequence is work's namespaced sequence followed by
personal's, so its length is the sum of the two profiles' corresponding
column lengths. -/
theorem c5_merge_consistency (w p m : KanbanData)
    (hm : getMergedData w p = some m)
    (hw : (w.tasks.map Prod.fst).Nodup)
    (hp : (p.tasks.map Prod.fst).Nodup) :
    ((m.tasks.map Prod.fst).Nodup ∧
      m.tasks.length = w.tasks.length + p.tasks.length) ∧
    (∀ q ∈ m.tasks,
      (∃ tid, tid ∈ w.tasks.map Prod.fst ∧ q.1 = nsId "work" tid ∧
        (q.2 : Task).id = q.1) ∨
      (∃ tid, tid ∈ p.tasks.map Prod.fst ∧ q.1 = nsId "personal" tid ∧
        (q.2 : Task).id = q.1)) ∧
    (∀ cid wc pc mc, jsGet w.columns cid = some wc →
      jsGet p.columns cid = some pc → jsGet m.columns cid = some mc →
      mc.taskIds = wc.taskIds.map (nsId "work") ++
        pc.taskIds.map (nsId "personal") ∧
      mc.taskIds.length = wc.taskIds.length + pc.taskIds.length) := by
  rcases e1 : mergedColumn "todo" "To Do" w p with _ | ct
  · exfalso
    unfold getMergedData at hm
    rw [e1] at hm
    simp at hm
  rcases e2 : mergedColumn "inprogress" "In Progress" w p with _ | ci
  · exfalso
    unfold getMergedData at hm
    rw [e1, e2] at hm
    simp at hm
  rcases e3 : mergedColumn "done" "Done" w p with _ | cd
  · exfalso
    unfold getMergedData at hm
    rw [e1, e2, e3] at hm
    simp at hm
  unfold getMergedData at hm
  rw [e1, e2, e3] at hm
  simp only [Option.some.injEq] at hm
  subst hm
  have hkeysW : (w.tasks.map (fun q =>
      (nsId "work" q.1, { q.2 with id := nsId "work" q.1 }))).map Prod.fst =
      (w.tasks.map Prod.fst).map (nsId "work") := by
    rw [List.map_map, List.map_map]
    rfl
  have hkeysP : (p.tasks.map (fun q =>
      (nsId "personal" q.1, { q.2 with id := nsId "personal" q.1 }))).map
      Prod.fst = (p.tasks.map Prod.fst).map (nsId "personal") := by
    rw [List.map_map, List.map_map]
    rfl
  refine ⟨⟨?_, ?_⟩, ?_, ?_⟩
  · dsimp only
    rw [List.map_append, hkeysW, hkeysP, List.nodup_append]
    refine ⟨hw.map (fun a b hab => nsId_inj hab),
      hp.map (fun a b hab => nsId_inj hab), ?_⟩
    intro x hx1 hx2
    obtain ⟨a1, _, he1⟩ := List.mem_map.mp hx1
    obtain ⟨a2, _, he2⟩ := List.mem_map.mp hx2
    exact nsId_work_ne_personal a1 a2 (he1.trans he2.symm)
  · dsimp only
    simp
  · intro q hq
    dsimp only at hq
    rcases List.mem_append.mp hq with h5 | h5
    · left
      obtain ⟨q0, hq0, hq0e⟩ := List.mem_map.mp h5
      refine ⟨q0.1, List.mem_map.mpr ⟨q0, hq0, rfl⟩, ?_, ?_⟩
      · rw [← hq0e]
      · rw [← hq0e]
    · right
      obtain ⟨q0, hq0, hq0e⟩ := List.mem_map.mp h5
      refine ⟨q0.1, List.mem_map.mpr ⟨q0, hq0, rfl⟩, ?_, ?_⟩
      · rw [← hq0e]
      · rw [← hq0e]
  · intro cid wc pc mc hwc hpc hmc
    dsimp only at hmc
    by_cases h1 : "todo" = cid
    · subst h1
      have hmc2 : mc = ct :=
        (Option.some.inj (hmc : (some ct : Option Column) = some mc)).symm
      subst hmc2
      have hspec := mergedColumn_spec e1 hwc hpc
      exact ⟨hspec, by rw [hspec]; simp⟩
    · by_cases h2 : "inprogress" = cid
      · subst h2
        have hmc2 : mc = ci := by
          have hstep : jsGet [("todo", ct), ("inprogress", ci),
              ("done", cd)] "inprogress" = some ci := by
            unfold jsGet
            rw [if_neg (by decide)]
            unfold jsGet
            rw [if_pos rfl]
          rw [hstep] at hmc
          exact (Option.some.inj hmc).symm
        subst hmc2
        have hspec := mergedColumn_spec e2 hwc hpc
        exact ⟨hspec, by rw [hspec]; simp⟩
      · by_cases h3 : "done" = cid
        · subst h3
          have hmc2 : mc = cd := by
            have hstep : jsGet [("todo", ct), ("inprogress", ci),
                ("done", cd)] "done" = some cd := by
              unfold jsGet
              rw [if_neg (by decide)]
              unfold jsGet
              rw [if_neg (by decide)]
              unfold jsGet
              rw [if_pos rfl]
            rw [hstep] at hmc
            exact (Option.some.inj hmc).symm
          subst hmc2
          have hspec := mergedColumn_spec e3 hwc hpc
          exact ⟨hspec, by rw [hspec]; simp⟩
        · exfalso
          have hstep : jsGet [("todo", ct), ("inprogress", ci),
              ("done", cd)] cid = none := by
            unfold jsGet
            rw [if_neg h1]
            unfold jsGet
            rw [if_neg h2]
            unfold jsGet
            rw [if_neg h3]
            rfl
          rw [hstep] at hmc
          exact Option.noConfusion hmc

/-- The merged board of the default board with itself, written out. -/
def mergedEx : KanbanData :=
  { columns :=
      [("todo", { id := "todo", title := "To Do",
                  taskIds := ["work__task-1", "work__task-2",
                    "personal__task-1", "personal__task-2"] }),
       ("inprogress", { id := "inprogress", title := "In Progress",
                        taskIds := ["work__task-3", "personal__task-3"] }),
       ("done", { id := "done", title := "Done", taskIds := [] })],
    tasks :=
      [("work__task-1", { id := "work__task-1", content := "Design UI" }),
       ("work__task-2", { id := "work__task-2",
                          content := "Set up database" }),
       ("work__task-3", { id := "work__task-3",
                          content := "Implement drag and drop" }),
       ("personal__task-1", { id := "personal__task-1",
                              content := "Design UI" }),
       ("personal__task-2", { id := "personal__task-2",
                              content := "Set up database" }),
       ("personal__task-3", { id := "personal__task-3",
                              content := "Implement drag and drop" })],
    columnOrder := ["todo", "inprogress", "done"] }

theorem c5_witness :
    getMergedData initialData initialData = some mergedEx ∧
    ((mergedEx.tasks.map Prod.fst).Nodup ∧
      mergedEx.tasks.length =
        initialData.tasks.length + initialData.tasks.length) :=
  ⟨by decide,
   (c5_merge_consistency initialData initialData mergedEx (by decide)
      (by decide) (by decide)).1⟩

theorem c10_witness :
    handleAddTaskFromCommandBar psEx "all" none "New item" "task-42" =
      psEx ∧
    (handleAddTaskFromCommandBar psEx "all" (some "work") "New item"
        "task-42").personal = psEx.personal :=
  ⟨(c10_merged_add_requires_profile psEx "New item" "task-42").1,
   ((c10_merged_add_requires_profile psEx "New item" "task-42").2
      (by decide)).1⟩

end Kanban
